import Mathlib

/-!
Verification of the grid numerical core declared in
`src/old_grids/grid/utils.h` (the three functions `dot_multi`,
`dot_multi_moments_cube` and `dot_multi_moments`).  The repository holds
only the header with the declarations; the function bodies and the
`UniformGrid` descriptor (`old_grids/grid/uniform.h`) are not part of the
source tree, so the behaviour of the three operations is modelled from the
specification.  Machine doubles are modelled by exact rationals `ℚ`: every
claim under study involves only addition and multiplication of small exact
values, where binary64 arithmetic is exact.
-/

/-- Error taxonomy of the spec (§7): the only failure mode exercised by the
three operations on malformed arguments is `InvalidArgument`. -/
inductive GridError where
  | InvalidArgument
deriving DecidableEq, Repr

deriving instance DecidableEq for Except

/-- Modelled from the spec: segment-offset validation for `dot_multi` and
`dot_multi_moments` (the bodies in `utils.cpp` are missing from the
repository).  Per §3, a segment-offset sequence is valid when every offset
lies in `[0, npoint]` and the sequence is monotonically non-decreasing.
Offsets are modelled as `Nat`, so the lower bound `0 ≤ offset` is
automatic. -/
def segmentsValid (npoint : Nat) : List Nat → Bool
  | [] => true
  | [a] => decide (a ≤ npoint)
  | a :: b :: t => decide (a ≤ npoint) && decide (a ≤ b) && segmentsValid npoint (b :: t)

/-- The list of consecutive offset pairs `(segments[i], segments[i+1])`;
each pair delimits one contiguous segment of points. -/
def segPairs : List Nat → List (Nat × Nat)
  | a :: b :: t => (a, b) :: segPairs (b :: t)
  | _ => []

/-- Accumulation loop over `n` points starting at index `i`, in ascending
point-index order: `acc + Σ v[i+k] * w[i+k]`. -/
def segSumAux (v w : List ℚ) (acc : ℚ) (i : Nat) : Nat → ℚ
  | 0 => acc
  | n + 1 => segSumAux v w (acc + v.getD i 0 * w.getD i 0) (i + 1) n

/-- Weighted sum of vector `v` against weight channel `w` over the
half-open point range `[a, b)`, accumulated in ascending order. -/
def segSum (v w : List ℚ) (a b : Nat) : ℚ :=
  segSumAux v w 0 a (b - a)

/-- One output row of the reducer: for vector `v`, the per-segment weighted
sums, one entry per consecutive offset pair. -/
def dotRow (v w : List ℚ) (segments : List Nat) : List ℚ :=
  (segPairs segments).map (fun ab => segSum v w ab.1 ab.2)

/-- Modelled from the spec: the body of `dot_multi` (declared at
`src/old_grids/grid/utils.h:28-29`) is not in the repository.  Following
§4.1: validate the segment offsets first (failing with `InvalidArgument`
and producing no output), then produce the `nvector × nsegment` output,
row-major by vector then segment, each entry being the sum over the
segment's points of `data[vector][point] * weight[point]`.  The weight
channel — per the spec supplied implicitly by a caller convention, as one
of the data arrays or a designated vector — is made explicit as the
`weight` argument of the model. -/
def dot_multi (npoint : Nat) (data : List (List ℚ)) (weight : List ℚ)
    (segments : List Nat) : Except GridError (List (List ℚ)) :=
  if segmentsValid npoint segments then
    Except.ok (data.map (fun v => dotRow v weight segments))
  else
    Except.error GridError.InvalidArgument

/-- Insert the value `a` at position `n` of a list (appending when `n` is
past the end); used to relate outputs of two segmentations that differ by
one empty segment. -/
def insertAt (a : ℚ) : Nat → List ℚ → List ℚ
  | 0, l => a :: l
  | _ + 1, [] => [a]
  | n + 1, x :: t => x :: insertAt a n t

/-- A 3-D vector of exact rationals, modelling a C triple of doubles. -/
abbrev Vec3 : Type := ℚ × ℚ × ℚ

/-- Componentwise difference of 3-D vectors (displacement from a center). -/
def vsub (u v : Vec3) : Vec3 :=
  (u.1 - v.1, u.2.1 - v.2.1, u.2.2 - v.2.2)

/-- The per-point data term of the moment evaluators: the product of the
values of all supplied data vectors at point `p` (the batch is typically a
single vector, or a vector together with the quadrature weights). -/
def pointTerm (data : List (List ℚ)) (p : Nat) : ℚ :=
  (data.map (fun v => v.getD p 0)).prod

/-- Monomial moment basis: all monomials `x^px * y^py * z^pz` of total
degree at most `lmax`, grouped by total degree (degree 0 first); within a
degree the exponent of `x` then of `y` increases.  The spec fixes only the
grouping by degree; the order inside a degree is a documented convention
of this model. -/
def monomialBasis (lmax : Nat) (d : Vec3) : List ℚ :=
  (List.range (lmax + 1)).flatMap (fun l =>
    (List.range (l + 1)).flatMap (fun px =>
      (List.range (l - px + 1)).map (fun py =>
        d.1 ^ px * d.2.1 ^ py * d.2.2 ^ (l - px - py))))

/-- Cosine/sine pair of real solid harmonics of order `l` and projection
`m`, evaluated at `(x, y, z)` with `r2 = x² + y² + z²`.  The spec (§9)
leaves the normalization convention open; this model fixes the
Legendre-style convention with base functions `1; z, x, y`, the sectoral
step `c ← x·c − y·s`, `s ← x·s + y·c`, and the vertical recurrence
`(l−m+1)·R(l+1,m) = (2l+1)·z·R(l,m) − (l+m)·r²·R(l−1,m)`, whose
coefficients are all rational.  Pairs with `m > l` are zero. -/
def sh (x y z r2 : ℚ) : Nat → Nat → ℚ × ℚ
  | 0, 0 => (1, 0)
  | 0, _ + 1 => (0, 0)
  | 1, 0 => (z, 0)
  | 1, 1 => (x, y)
  | 1, _ + 2 => (0, 0)
  | l + 2, m =>
    if m = l + 2 then
      let p := sh x y z r2 (l + 1) (l + 1)
      (x * p.1 - y * p.2, x * p.2 + y * p.1)
    else
      let p1 := sh x y z r2 (l + 1) m
      let p0 := sh x y z r2 l m
      let c : ℚ := (l : ℚ) + 2 - (m : ℚ)
      (((2 * (l : ℚ) + 3) * z * p1.1 - ((l : ℚ) + 1 + (m : ℚ)) * r2 * p0.1) / c,
       ((2 * (l : ℚ) + 3) * z * p1.2 - ((l : ℚ) + 1 + (m : ℚ)) * r2 * p0.2) / c)

/-- The `2l+1` real solid harmonics of order `l`, in the order
`R(l,0), Rc(l,1), Rs(l,1), …, Rc(l,l), Rs(l,l)`. -/
def harmOrder (x y z r2 : ℚ) (l : Nat) : List ℚ :=
  (sh x y z r2 l 0).1 ::
    (List.range l).flatMap (fun m => [(sh x y z r2 l (m + 1)).1, (sh x y z r2 l (m + 1)).2])

/-- Real solid-harmonic moment basis: orders `0 ≤ l ≤ lmax` concatenated,
`(lmax+1)²` components in total. -/
def harmonicBasis (lmax : Nat) (d : Vec3) : List ℚ :=
  (List.range (lmax + 1)).flatMap
    (harmOrder d.1 d.2.1 d.2.2 (d.1 ^ 2 + d.2.1 ^ 2 + d.2.2 ^ 2))

/-- Modelled from the spec: the `mtype` enumeration of the moment
evaluators (its meaning is not fixed by the declarations in
`src/old_grids/grid/utils.h`; §4.2 says it selects between pure monomial
moments and real solid-harmonic moments).  This model fixes the encoding
`0 = monomial`, `1 = solid harmonic`; every other value is unrecognized. -/
def momentBasis (lmax : Nat) (mtype : Int) (d : Vec3) : List ℚ :=
  if mtype = 0 then monomialBasis lmax d else harmonicBasis lmax d

/-- The number of moment components demanded by `(lmax, mtype)`:
`(lmax+1)(lmax+2)(lmax+3)/6` monomials of total degree at most `lmax`, or
`(lmax+1)²` real solid harmonics of order at most `lmax`. -/
def nmomentFor (lmax : Nat) (mtype : Int) : Nat :=
  if mtype = 0 then (lmax + 1) * (lmax + 2) * (lmax + 3) / 6 else (lmax + 1) ^ 2

/-- Add `c` times the basis vector `bs` into the accumulator, slot by
slot. -/
def addScaled (acc : List ℚ) (c : ℚ) (bs : List ℚ) : List ℚ :=
  List.zipWith (fun a b => a + c * b) acc bs

/-- Moment accumulation loop over `n` points starting at point index `i`,
in ascending point-index order: each visited point adds its data term
times its moment-basis values into the accumulator. -/
def segMomentsAux (term : Nat → ℚ) (basisAt : Nat → List ℚ) (acc : List ℚ)
    (i : Nat) : Nat → List ℚ
  | 0 => acc
  | n + 1 => segMomentsAux term basisAt (addScaled acc (term i) (basisAt i)) (i + 1) n

/-- The explicit point coordinates of the arbitrary-point evaluator: point
`p` occupies slots `3p, 3p+1, 3p+2` of the flat `points` array. -/
def coordAt (points : List ℚ) (p : Nat) : Vec3 :=
  (points.getD (3 * p) 0, points.getD (3 * p + 1) 0, points.getD (3 * p + 2) 0)

/-- Modelled from the spec: the body of `dot_multi_moments` (declared at
`src/old_grids/grid/utils.h:32-34`) is not in the repository.  Following
§4.3: validate `lmax ≥ 0`, a recognized `mtype`, `nmoment` consistent with
`(lmax, mtype)`, the segment offsets, and the `points` length (`3·npoint`)
— any violation fails with `InvalidArgument` and produces no output.  On
success, for each segment independently, accumulate over its points in
ascending order the data term times the moment basis evaluated at the
point's displacement from the shared `center`, giving an
`nsegment × nmoment` output. -/
def dot_multi_moments (npoint : Nat) (data : List (List ℚ)) (points : List ℚ)
    (center : Vec3) (lmax mtype : Int) (segments : List Nat) (nmoment : Int) :
    Except GridError (List (List ℚ)) :=
  if lmax < 0 then Except.error GridError.InvalidArgument
  else if mtype ≠ 0 ∧ mtype ≠ 1 then Except.error GridError.InvalidArgument
  else if nmoment ≠ (nmomentFor lmax.toNat mtype : Int) then
    Except.error GridError.InvalidArgument
  else if ¬ segmentsValid npoint segments then Except.error GridError.InvalidArgument
  else if points.length ≠ 3 * npoint then Except.error GridError.InvalidArgument
  else
    Except.ok ((segPairs segments).map (fun ab =>
      segMomentsAux (pointTerm data)
        (fun p => momentBasis lmax.toNat mtype (vsub (coordAt points p) center))
        (List.replicate (nmomentFor lmax.toNat mtype) 0) ab.1 (ab.2 - ab.1)))

/-- Modelled from the spec: the `UniformGrid` descriptor
(`old_grids/grid/uniform.h` is not in the repository; §6 describes it):
an origin, three axis vectors and three per-axis point counts, sufficient
to map a 3-D integer index to a Cartesian coordinate.  No per-point
quadrature weight is stored (weights are pre-folded into the data, per
§4.2), so the per-point weight is 1. -/
structure UniformGrid where
  origin : Vec3
  axis0 : Vec3
  axis1 : Vec3
  axis2 : Vec3
  shape0 : Nat
  shape1 : Nat
  shape2 : Nat

/-- The Cartesian coordinate of grid index `(i, j, k)`:
`origin + i·axis0 + j·axis1 + k·axis2` — coordinates are derived, never
stored. -/
def cubeCoord (g : UniformGrid) (i j k : Nat) : Vec3 :=
  (g.origin.1 + (i : ℚ) * g.axis0.1 + (j : ℚ) * g.axis1.1 + (k : ℚ) * g.axis2.1,
   g.origin.2.1 + (i : ℚ) * g.axis0.2.1 + (j : ℚ) * g.axis1.2.1 + (k : ℚ) * g.axis2.2.1,
   g.origin.2.2 + (i : ℚ) * g.axis0.2.2 + (j : ℚ) * g.axis1.2.2 + (k : ℚ) * g.axis2.2.2)

/-- All grid index triples in lexicographic order (`i` outermost, `k`
innermost), the fixed visiting order of the cube accumulation. -/
def gridIndices (g : UniformGrid) : List (Nat × Nat × Nat) :=
  (List.range g.shape0).flatMap (fun i =>
    (List.range g.shape1).flatMap (fun j =>
      (List.range g.shape2).map (fun k => (i, j, k))))

/-- The flat (row-major) point index of grid index `(i, j, k)`, addressing
the data arrays. -/
def flatIdx (g : UniformGrid) (i j k : Nat) : Nat :=
  (i * g.shape1 + j) * g.shape2 + k

/-- Modelled from the spec: the body of `dot_multi_moments_cube` (declared
at `src/old_grids/grid/utils.h:30-31`) is not in the repository.
Following §4.2: validate `lmax ≥ 0`, a recognized `mtype` and an
`nmoment` consistent with `(lmax, mtype)` — any violation fails with
`InvalidArgument` and produces no output.  On success, visit every grid
point in lexicographic index order, derive its coordinate from the
uniform-grid descriptor, and accumulate the data term times the moment
basis evaluated at the displacement from `center`, giving one moment
vector of length `nmoment` for the whole grid. -/
def dot_multi_moments_cube (data : List (List ℚ)) (ugrid : UniformGrid)
    (center : Vec3) (lmax mtype : Int) (nmoment : Int) :
    Except GridError (List ℚ) :=
  if lmax < 0 then Except.error GridError.InvalidArgument
  else if mtype ≠ 0 ∧ mtype ≠ 1 then Except.error GridError.InvalidArgument
  else if nmoment ≠ (nmomentFor lmax.toNat mtype : Int) then
    Except.error GridError.InvalidArgument
  else
    Except.ok ((gridIndices ugrid).foldl (fun acc ijk =>
        addScaled acc (pointTerm data (flatIdx ugrid ijk.1 ijk.2.1 ijk.2.2))
          (momentBasis lmax.toNat mtype (vsub (cubeCoord ugrid ijk.1 ijk.2.1 ijk.2.2) center)))
      (List.replicate (nmomentFor lmax.toNat mtype) 0))

/-- One parameter of a C function declaration: its type and its name, as
written in the header. -/
structure CParam where
  ctype : String
  cname : String
deriving DecidableEq, Repr

/-- One C function declaration: return type, function name and parameter
list, as written in the header. -/
structure CDecl where
  returnType : String
  cname : String
  params : List CParam
deriving DecidableEq, Repr

/-- The three declarations of `src/old_grids/grid/utils.h` (lines 28-34),
transcribed verbatim from the source. -/
def utils_h_decls : List CDecl :=
  [⟨"void", "dot_multi",
    [⟨"long", "npoint"⟩, ⟨"long", "nvector"⟩, ⟨"double**", "data"⟩,
     ⟨"long*", "segments"⟩, ⟨"double*", "output"⟩]⟩,
   ⟨"void", "dot_multi_moments_cube",
    [⟨"long", "nvector"⟩, ⟨"double**", "data"⟩, ⟨"UniformGrid*", "ugrid"⟩,
     ⟨"double*", "center"⟩, ⟨"long", "lmax"⟩, ⟨"long", "mtype"⟩,
     ⟨"double*", "output"⟩, ⟨"long", "nmoment"⟩]⟩,
   ⟨"void", "dot_multi_moments",
    [⟨"long", "npoint"⟩, ⟨"long", "nvector"⟩, ⟨"double**", "data"⟩,
     ⟨"double*", "points"⟩, ⟨"double*", "center"⟩, ⟨"long", "lmax"⟩,
     ⟨"long", "mtype"⟩, ⟨"long*", "segments"⟩, ⟨"double*", "output"⟩,
     ⟨"long", "nmoment"⟩]⟩]

/-! ## Helper lemmas -/

theorem getD_map_of_lt {α β : Type} (f : α → β) (d : α) (e : β) :
    ∀ (l : List α) (n : Nat), n < l.length → (l.map f).getD n e = f (l.getD n d) := by
  intro l
  induction l with
  | nil => intro n h; simp at h
  | cons x t ih =>
    intro n h
    cases n with
    | zero => simp [List.getD]
    | succ m =>
      simp only [List.map_cons, List.getD_cons_succ]
      exact ih m (by simpa using h)

theorem getD_of_len_le {α : Type} (e : α) :
    ∀ (l : List α) (n : Nat), l.length ≤ n → l.getD n e = e := by
  intro l
  induction l with
  | nil => intro n _; simp [List.getD]
  | cons x t ih =>
    intro n h
    cases n with
    | zero => simp at h
    | succ m =>
      simp only [List.getD_cons_succ]
      exact ih m (by simpa using h)

theorem segPairs_length : ∀ l : List Nat, (segPairs l).length = l.length - 1 := by
  intro l
  induction l with
  | nil => simp [segPairs]
  | cons a t ih =>
    cases t with
    | nil => simp [segPairs]
    | cons b t2 => simp [segPairs] at ih ⊢; omega

theorem dotRow_length (v w : List ℚ) (l : List Nat) :
    (dotRow v w l).length = l.length - 1 := by
  simp [dotRow, segPairs_length]

theorem sum_range_shift (f : Nat → ℚ) (n i : Nat) :
    ∑ k in Finset.range (n + 1), f (i + k) =
      f i + ∑ k in Finset.range n, f (i + 1 + k) := by
  have h1 : ∑ k in Finset.range (n + 1), f (i + k) =
      (∑ k in Finset.range n, f (i + (k + 1))) + f (i + 0) :=
    Finset.sum_range_succ' (fun k => f (i + k)) n
  rw [h1, Nat.add_zero, add_comm]
  congr 1
  refine Finset.sum_congr rfl (fun k _ => ?_)
  congr 1
  omega

theorem segSumAux_eq (v w : List ℚ) :
    ∀ (n : Nat) (acc : ℚ) (i : Nat),
      segSumAux v w acc i n =
        acc + ∑ k in Finset.range n, v.getD (i + k) 0 * w.getD (i + k) 0 := by
  intro n
  induction n with
  | zero => intro acc i; simp [segSumAux]
  | succ m ih =>
    intro acc i
    rw [segSumAux, ih, sum_range_shift (fun p => v.getD p 0 * w.getD p 0) m i]
    ring

theorem segSum_eq (v w : List ℚ) (a b : Nat) :
    segSum v w a b = ∑ p in Finset.Ico a b, v.getD p 0 * w.getD p 0 := by
  rw [segSum, segSumAux_eq, Finset.sum_Ico_eq_sum_range]
  simp

theorem segSum_self (v w : List ℚ) (c : Nat) : segSum v w c c = 0 := by
  simp [segSum_eq]

theorem dotRow_cons_cons (v w : List ℚ) (a b : Nat) (t : List Nat) :
    dotRow v w (a :: b :: t) = segSum v w a b :: dotRow v w (b :: t) := rfl

theorem dotRow_getD (v w : List ℚ) :
    ∀ (l : List Nat) (si : Nat), si + 1 < l.length →
      (dotRow v w l).getD si 0 = segSum v w (l.getD si 0) (l.getD (si + 1) 0) := by
  intro l
  induction l with
  | nil => intro si h; simp at h
  | cons a t ih =>
    intro si h
    cases t with
    | nil => simp at h
    | cons b t2 =>
      cases si with
      | zero => simp [dotRow_cons_cons, List.getD]
      | succ sj =>
        rw [dotRow_cons_cons]
        simp only [List.getD_cons_succ]
        exact ih sj (by simpa using h)

theorem segmentsValid_cons_cons (np a b : Nat) (t : List Nat) :
    segmentsValid np (a :: b :: t) = true ↔
      a ≤ np ∧ a ≤ b ∧ segmentsValid np (b :: t) = true := by
  simp [segmentsValid, Bool.and_eq_true, decide_eq_true_eq, and_assoc]

theorem segmentsValid_head_le_last (np : Nat) :
    ∀ (t : List Nat) (a b : Nat), segmentsValid np (a :: t) = true →
      (a :: t).getLast? = some b → a ≤ b := by
  intro t
  induction t with
  | nil =>
    intro a b _ hl
    simp [List.getLast?] at hl
    omega
  | cons c t2 ih =>
    intro a b hv hl
    rw [segmentsValid_cons_cons] at hv
    have hl2 : (c :: t2).getLast? = some b := by
      rw [List.getLast?_cons_cons] at hl
      exact hl
    exact le_trans hv.2.1 (ih c b hv.2.2 hl2)

theorem segPairs_getD :
    ∀ (l : List Nat) (si : Nat), si + 1 < l.length →
      (segPairs l).getD si (0, 0) = (l.getD si 0, l.getD (si + 1) 0) := by
  intro l
  induction l with
  | nil => intro si h; simp at h
  | cons a t ih =>
    intro si h
    cases t with
    | nil => simp at h
    | cons b t2 =>
      cases si with
      | zero => simp [segPairs, List.getD]
      | succ sj =>
        show (segPairs (b :: t2)).getD sj (0, 0) = _
        simp only [List.getD_cons_succ]
        exact ih sj (by simpa using h)

theorem segPairs_mem :
    ∀ (l : List Nat) (ab : Nat × Nat), ab ∈ segPairs l → ab.1 ∈ l ∧ ab.2 ∈ l := by
  intro l
  induction l with
  | nil => intro ab h; simp [segPairs] at h
  | cons a t ih =>
    intro ab h
    cases t with
    | nil => simp [segPairs] at h
    | cons b t2 =>
      rcases List.mem_cons.mp h with h1 | h2
      · subst h1
        exact ⟨List.mem_cons_self a _, List.mem_cons_of_mem a (List.mem_cons_self b _)⟩
      · have h3 := ih ab h2
        exact ⟨List.mem_cons_of_mem a h3.1, List.mem_cons_of_mem a h3.2⟩

theorem segmentsValid_zero_all :
    ∀ l : List Nat, segmentsValid 0 l = true → ∀ x ∈ l, x = 0 := by
  intro l
  induction l with
  | nil => intro _ x hx; simp at hx
  | cons a t ih =>
    intro hv x hx
    cases t with
    | nil =>
      simp [segmentsValid] at hv
      simp at hx
      omega
    | cons b t2 =>
      rw [segmentsValid_cons_cons] at hv
      rcases List.mem_cons.mp hx with h1 | h2
      · omega
      · exact ih hv.2.2 x h2

theorem segmentsValid_dedup (np c : Nat) (ys : List Nat) :
    ∀ xs : List Nat, segmentsValid np (xs ++ c :: c :: ys) = true →
      segmentsValid np (xs ++ c :: ys) = true := by
  intro xs
  induction xs with
  | nil =>
    intro hv
    simp only [List.nil_append] at hv ⊢
    rw [segmentsValid_cons_cons] at hv
    exact hv.2.2
  | cons x t ih =>
    intro hv
    cases t with
    | nil =>
      simp only [List.cons_append, List.nil_append] at hv ⊢
      rw [segmentsValid_cons_cons] at hv ⊢
      refine ⟨hv.1, hv.2.1, ?_⟩
      have h2 := hv.2.2
      rw [segmentsValid_cons_cons] at h2
      exact h2.2.2
    | cons y t2 =>
      simp only [List.cons_append] at hv ⊢
      rw [segmentsValid_cons_cons] at hv ⊢
      refine ⟨hv.1, hv.2.1, ?_⟩
      have h2 := ih
      simp only [List.cons_append] at h2
      exact h2 hv.2.2

theorem dotRow_dup (v w : List ℚ) (c : Nat) (ys : List Nat) :
    ∀ xs : List Nat,
      dotRow v w (xs ++ c :: c :: ys) = insertAt 0 xs.length (dotRow v w (xs ++ c :: ys)) := by
  intro xs
  induction xs with
  | nil =>
    simp only [List.nil_append, List.length_nil]
    rw [dotRow_cons_cons, segSum_self, insertAt]
  | cons x t ih =>
    cases t with
    | nil =>
      simp only [List.cons_append, List.nil_append, List.length_cons, List.length_nil]
      rw [dotRow_cons_cons, dotRow_cons_cons, segSum_self,
        dotRow_cons_cons (v := v) (w := w) (a := x) (b := c) (t := ys),
        insertAt, insertAt]
    | cons y t2 =>
      simp only [List.cons_append, List.length_cons] at ih ⊢
      rw [dotRow_cons_cons, dotRow_cons_cons (v := v) (w := w) (a := x) (b := y),
        insertAt, ih]

theorem dotRow_sum (v w : List ℚ) (np : Nat) :
    ∀ (t : List Nat) (a b : Nat), segmentsValid np (a :: t) = true →
      (a :: t).getLast? = some b → (dotRow v w (a :: t)).sum = segSum v w a b := by
  intro t
  induction t with
  | nil =>
    intro a b _ hl
    simp [List.getLast?] at hl
    subst hl
    simp [dotRow, segPairs, segSum_self]
  | cons c t2 ih =>
    intro a b hv hl
    rw [segmentsValid_cons_cons] at hv
    rw [List.getLast?_cons_cons] at hl
    rw [dotRow_cons_cons, List.sum_cons, ih c b hv.2.2 hl]
    have hcb : c ≤ b := segmentsValid_head_le_last np t2 c b hv.2.2 hl
    rw [segSum_eq, segSum_eq, segSum_eq]
    exact Finset.sum_Ico_consecutive _ hv.2.1 hcb

theorem pointTerm_pair (v w : List ℚ) (p : Nat) :
    pointTerm [v, w] p = v.getD p 0 * w.getD p 0 := by
  simp [pointTerm]

theorem momentBasis_zero (mtype : Int) (hmt : mtype = 0 ∨ mtype = 1) (d : Vec3) :
    momentBasis 0 mtype d = [1] := by
  rcases hmt with h | h <;> subst h
  · simp [momentBasis, monomialBasis, List.range_succ]
  · norm_num [momentBasis, harmonicBasis, harmOrder, sh, List.range_succ]

theorem addScaled_single (q t b : ℚ) : addScaled [q] t [b] = [q + t * b] := rfl

theorem segMomentsAux_one (term : Nat → ℚ) (basisAt : Nat → List ℚ)
    (hb : ∀ p, basisAt p = [1]) :
    ∀ (n : Nat) (q : ℚ) (i : Nat),
      segMomentsAux term basisAt [q] i n = [q + ∑ k in Finset.range n, term (i + k)] := by
  intro n
  induction n with
  | zero => intro q i; simp [segMomentsAux]
  | succ m ih =>
    intro q i
    rw [segMomentsAux, hb i, addScaled_single, mul_one, ih,
      sum_range_shift term m i]
    congr 1
    ring

theorem dot_multi_moments_ok (npoint : Nat) (data : List (List ℚ)) (points : List ℚ)
    (center : Vec3) (lmax mtype : Int) (segments : List Nat) (nmoment : Int)
    (h0 : 0 ≤ lmax) (h1 : mtype = 0 ∨ mtype = 1)
    (h2 : nmoment = (nmomentFor lmax.toNat mtype : Int))
    (h3 : segmentsValid npoint segments = true)
    (h4 : points.length = 3 * npoint) :
    dot_multi_moments npoint data points center lmax mtype segments nmoment =
      Except.ok ((segPairs segments).map (fun ab =>
        segMomentsAux (pointTerm data)
          (fun p => momentBasis lmax.toNat mtype (vsub (coordAt points p) center))
          (List.replicate (nmomentFor lmax.toNat mtype) 0) ab.1 (ab.2 - ab.1))) := by
  simp only [dot_multi_moments]
  rw [if_neg (by omega), if_neg (by tauto), if_neg (by omega),
    if_neg (by simp [h3]), if_neg (by omega)]

/-! ## Claim theorems -/

/-- C1: for every valid call to the segmented dot-product reducer
(`npoint ≥ 0` and `nvector ≥ 0` hold by the `Nat` types, each data array
has length `npoint`, the segment offsets are valid, and the weight channel
is the `w`-th data array by caller convention), the output is an array of
size `nvector × nsegment`, row-major by vector then segment, whose
`(vi, si)` entry equals the sum over the points of segment `si` of
`data[vi][p] * weight[p]`. -/
theorem dot_multi_correct (npoint : Nat) (data : List (List ℚ)) (w : Nat)
    (segments : List Nat) (_hw : w < data.length)
    (_hlen : ∀ v ∈ data, v.length = npoint)
    (hvalid : segmentsValid npoint segments = true) :
    ∃ out, dot_multi npoint data (data.getD w []) segments = Except.ok out ∧
      out.length = data.length ∧
      (∀ row ∈ out, row.length = segments.length - 1) ∧
      ∀ vi si, vi < data.length → si + 1 < segments.length →
        (out.getD vi []).getD si 0 =
          ∑ p in Finset.Ico (segments.getD si 0) (segments.getD (si + 1) 0),
            (data.getD vi []).getD p 0 * (data.getD w []).getD p 0 := by
  refine ⟨data.map (fun v => dotRow v (data.getD w []) segments), ?_, ?_, ?_, ?_⟩
  · simp [dot_multi, hvalid]
  · simp
  · intro row hrow
    obtain ⟨v, _, rfl⟩ := List.mem_map.mp hrow
    exact dotRow_length _ _ _
  · intro vi si hvi hsi
    rw [getD_map_of_lt (fun v => dotRow v (data.getD w []) segments) [] [] data vi hvi]
    rw [dotRow_getD _ _ segments si hsi, segSum_eq]

/-- Witness for C1 at `npoint = 2`, `data = [[1,2],[3,4]]`, weight channel
`w = 1`, segments `[0,1,2]`. -/
theorem dot_multi_correct_witness :
    ∃ out, dot_multi 2 [[1, 2], [3, 4]]
        (([[1, 2], [3, 4]] : List (List ℚ)).getD 1 []) [0, 1, 2] = Except.ok out ∧
      out.length = ([[1, 2], [3, 4]] : List (List ℚ)).length ∧
      (∀ row ∈ out, row.length = ([0, 1, 2] : List Nat).length - 1) ∧
      ∀ vi si, vi < ([[1, 2], [3, 4]] : List (List ℚ)).length →
        si + 1 < ([0, 1, 2] : List Nat).length →
        (out.getD vi []).getD si 0 =
          ∑ p in Finset.Ico (([0, 1, 2] : List Nat).getD si 0)
              (([0, 1, 2] : List Nat).getD (si + 1) 0),
            (([[1, 2], [3, 4]] : List (List ℚ)).getD vi []).getD p 0 *
              (([[1, 2], [3, 4]] : List (List ℚ)).getD 1 []).getD p 0 :=
  dot_multi_correct 2 [[1, 2], [3, 4]] 1 [0, 1, 2] (by decide) (by decide) (by decide)

/-- C2: on the concrete input `npoint = 4`, one data vector `[1,2,3,4]`,
segment offsets `[0,2,4]` and all weights `1`, the reducer returns
`[[3, 7]]` (the two per-segment sums for the single vector). -/
theorem dot_multi_concrete :
    dot_multi 4 [[1, 2, 3, 4]] [1, 1, 1, 1] [0, 2, 4] = Except.ok [[3, 7]] := by
  norm_num [dot_multi, segmentsValid, dotRow, segPairs, segSum, segSumAux]

/-- C3: for any valid segmentation covering `[0, npoint)` (head offset `0`,
last offset `npoint`), the sum over segments of the per-segment results of
a vector equals the whole-grid result of that vector computed with a
single segment `[0, npoint]` — no point double-counted or dropped. -/
theorem dot_multi_partition (npoint : Nat) (data : List (List ℚ)) (weight : List ℚ)
    (segments : List Nat) (hvalid : segmentsValid npoint segments = true)
    (hhead : segments.head? = some 0) (hlast : segments.getLast? = some npoint) :
    ∃ out whole,
      dot_multi npoint data weight segments = Except.ok out ∧
      dot_multi npoint data weight [0, npoint] = Except.ok whole ∧
      ∀ vi, vi < data.length →
        (out.getD vi []).sum = (whole.getD vi []).getD 0 0 := by
  cases segments with
  | nil => simp at hhead
  | cons a t =>
    have ha : a = 0 := by simpa using hhead
    subst ha
    have hv2 : segmentsValid npoint [0, npoint] = true := by
      simp [segmentsValid]
    refine ⟨data.map (fun v => dotRow v weight (0 :: t)),
      data.map (fun v => dotRow v weight [0, npoint]),
      by simp [dot_multi, hvalid], by simp [dot_multi, hv2], ?_⟩
    intro vi hvi
    rw [getD_map_of_lt (fun v => dotRow v weight (0 :: t)) [] [] data vi hvi,
      getD_map_of_lt (fun v => dotRow v weight [0, npoint]) [] [] data vi hvi]
    rw [dotRow_sum _ _ npoint t 0 npoint hvalid hlast]
    simp [dotRow, segPairs, List.getD]

/-- Witness for C3 at `npoint = 4`, `data = [[1,2,3,4]]`,
`weight = [1,1,1,1]`, segments `[0,2,4]`. -/
theorem dot_multi_partition_witness :
    ∃ out whole,
      dot_multi 4 [[1, 2, 3, 4]] [1, 1, 1, 1] [0, 2, 4] = Except.ok out ∧
      dot_multi 4 [[1, 2, 3, 4]] [1, 1, 1, 1] [0, 4] = Except.ok whole ∧
      ∀ vi, vi < ([[1, 2, 3, 4]] : List (List ℚ)).length →
        (out.getD vi []).sum = (whole.getD vi []).getD 0 0 :=
  dot_multi_partition 4 [[1, 2, 3, 4]] [1, 1, 1, 1] [0, 2, 4]
    (by decide) (by decide) (by decide)

/-- C4: a segment-offset sequence that is out of range or not
monotonically non-decreasing makes the reducer fail with
`InvalidArgument`, producing no output at all — validation precedes any
accumulation, so failure is atomic. -/
theorem dot_multi_invalid_segments (npoint : Nat) (data : List (List ℚ))
    (weight : List ℚ) (segments : List Nat)
    (hbad : segmentsValid npoint segments = false) :
    dot_multi npoint data weight segments =
      Except.error GridError.InvalidArgument := by
  simp [dot_multi, hbad]

/-- Witness for C4 at the spec's invalid-argument scenario: the
non-monotonic offsets `[0, 3, 2]`. -/
theorem dot_multi_invalid_segments_witness :
    dot_multi 4 [[1, 2, 3, 4]] [1, 1, 1, 1] [0, 3, 2] =
      Except.error GridError.InvalidArgument :=
  dot_multi_invalid_segments 4 [[1, 2, 3, 4]] [1, 1, 1, 1] [0, 3, 2] (by decide)

/-- C5: for both moment evaluators, a call with `lmax < 0`, an
unrecognized `mtype`, or an `nmoment` inconsistent with `(lmax, mtype)`
fails with `InvalidArgument` and produces no output. -/
theorem moments_invalid_descriptor (npoint : Nat) (data : List (List ℚ))
    (points : List ℚ) (ugrid : UniformGrid) (center : Vec3)
    (segments : List Nat) (lmax mtype nmoment : Int)
    (h : lmax < 0 ∨ (mtype ≠ 0 ∧ mtype ≠ 1) ∨
      nmoment ≠ (nmomentFor lmax.toNat mtype : Int)) :
    dot_multi_moments_cube data ugrid center lmax mtype nmoment =
      Except.error GridError.InvalidArgument ∧
    dot_multi_moments npoint data points center lmax mtype segments nmoment =
      Except.error GridError.InvalidArgument := by
  constructor
  · simp only [dot_multi_moments_cube]
    split_ifs <;> first | rfl | tauto
  · simp only [dot_multi_moments]
    split_ifs <;> first | rfl | tauto

/-- Witness for C5 at `lmax = -1` (with `mtype = 0`, `nmoment = 1`). -/
theorem moments_invalid_descriptor_witness :
    dot_multi_moments_cube [] ⟨(0, 0, 0), (1, 0, 0), (0, 1, 0), (0, 0, 1), 2, 2, 2⟩
      (0, 0, 0) (-1) 0 1 = Except.error GridError.InvalidArgument ∧
    dot_multi_moments 0 [] [] (0, 0, 0) (-1) 0 [] 1 =
      Except.error GridError.InvalidArgument :=
  moments_invalid_descriptor 0 [] []
    ⟨(0, 0, 0), (1, 0, 0), (0, 1, 0), (0, 0, 1), 2, 2, 2⟩ (0, 0, 0) [] (-1) 0 1
    (Or.inl (by norm_num))

/-- C6: with `lmax = 0` (and any recognized `mtype`), the single order-0
moment of each segment computed by the arbitrary-point evaluator on the
batch `[v, w]` (data vector and weight vector) equals the entry of the
segmented dot-product reducer for `v` against the weight channel `w` on
the same segment: the order-0 moment is the plain weighted sum. -/
theorem moments_order0_eq_dot (npoint : Nat) (v w points : List ℚ) (center : Vec3)
    (mtype : Int) (segments : List Nat)
    (hmt : mtype = 0 ∨ mtype = 1)
    (hpts : points.length = 3 * npoint)
    (hvalid : segmentsValid npoint segments = true) :
    ∃ mout dout,
      dot_multi_moments npoint [v, w] points center 0 mtype segments 1 =
        Except.ok mout ∧
      dot_multi npoint [v, w] w segments = Except.ok dout ∧
      ∀ si, (mout.getD si []).getD 0 0 = (dout.getD 0 []).getD si 0 := by
  have hnm : nmomentFor (0 : Int).toNat mtype = 1 := by
    rcases hmt with h | h <;> subst h <;> decide
  have hok := dot_multi_moments_ok npoint [v, w] points center 0 mtype segments 1
    (by norm_num) hmt (by rcases hmt with h | h <;> subst h <;> decide) hvalid hpts
  refine ⟨_, [dotRow v w segments, dotRow w w segments], hok,
    by simp [dot_multi, hvalid], ?_⟩
  intro si
  have hdout0 : ([dotRow v w segments, dotRow w w segments]).getD 0 [] =
      dotRow v w segments := rfl
  rw [hdout0]
  by_cases hsi : si + 1 < segments.length
  · have hlt : si < (segPairs segments).length := by
      rw [segPairs_length]; omega
    rw [getD_map_of_lt
      (fun ab => segMomentsAux (pointTerm [v, w])
        (fun p => momentBasis (0 : Int).toNat mtype (vsub (coordAt points p) center))
        (List.replicate (nmomentFor (0 : Int).toNat mtype) 0) ab.1 (ab.2 - ab.1))
      (0, 0) [] (segPairs segments) si hlt]
    rw [segPairs_getD segments si hsi]
    have hnm0 : nmomentFor 0 mtype = 1 := hnm
    simp only [Int.toNat_zero]
    rw [hnm0, List.replicate_one]
    rw [segMomentsAux_one (pointTerm [v, w]) _
      (fun p => momentBasis_zero mtype hmt (vsub (coordAt points p) center))]
    rw [dotRow_getD v w segments si hsi, segSum_eq]
    simp only [List.getD_cons_zero, zero_add]
    rw [Finset.sum_Ico_eq_sum_range]
    exact Finset.sum_congr rfl (fun k _ => pointTerm_pair v w _)
  · have hge : segments.length - 1 ≤ si := by omega
    rw [getD_of_len_le [] _ si (by rw [List.length_map, segPairs_length]; omega),
      getD_of_len_le 0 (dotRow v w segments) si (by rw [dotRow_length]; omega)]
    rfl

/-- Witness for C6 at `npoint = 1`, `v = [2]`, `w = [3]`,
`points = [0,0,0]`, `center = (0,0,0)`, monomial `mtype`, segments
`[0, 1]`. -/
theorem moments_order0_eq_dot_witness :
    ∃ mout dout,
      dot_multi_moments 1 [[2], [3]] [0, 0, 0] (0, 0, 0) 0 0 [0, 1] 1 =
        Except.ok mout ∧
      dot_multi 1 [[2], [3]] [3] [0, 1] = Except.ok dout ∧
      ∀ si, (mout.getD si []).getD 0 0 = (dout.getD 0 []).getD si 0 :=
  moments_order0_eq_dot 1 [2] [3] [0, 0, 0] (0, 0, 0) 0 [0, 1]
    (Or.inl rfl) (by decide) (by decide)

/-- C7: on a 2×2×2 uniform cube grid with unit spacing, data vector of
all ones, center at the grid's centroid `(1/2, 1/2, 1/2)`, `lmax = 0` and
monomial `mtype`, the cube evaluator returns the single value `8`. -/
theorem cube_moments_concrete :
    dot_multi_moments_cube [List.replicate 8 1]
      ⟨(0, 0, 0), (1, 0, 0), (0, 1, 0), (0, 0, 1), 2, 2, 2⟩
      (1/2, 1/2, 1/2) 0 0 1 = Except.ok [8] := by
  norm_num [dot_multi_moments_cube, nmomentFor, gridIndices, List.range_succ,
    flatIdx, cubeCoord, vsub, momentBasis, monomialBasis, pointTerm, addScaled,
    List.replicate]

/-- C8: with `npoint = 0` every output entry of the reducer is written and
equals zero; and for any valid segmentation, an empty segment (a
duplicated offset `c`) contributes exactly a zero in its own output slot
while every other segment's output is unchanged (the output rows of the
duplicated segmentation are those of the deduplicated one with a `0`
inserted at the empty segment's position). -/
theorem dot_multi_zero_and_empty (data : List (List ℚ)) (weight : List ℚ) :
    (∀ segments : List Nat, segmentsValid 0 segments = true →
      ∃ out, dot_multi 0 data weight segments = Except.ok out ∧
        out.length = data.length ∧
        (∀ row ∈ out, row.length = segments.length - 1) ∧
        (∀ row ∈ out, ∀ q ∈ row, q = 0)) ∧
    (∀ (npoint : Nat) (xs ys : List Nat) (c : Nat),
      segmentsValid npoint (xs ++ c :: c :: ys) = true →
      ∃ outDup outBase,
        dot_multi npoint data weight (xs ++ c :: c :: ys) = Except.ok outDup ∧
        dot_multi npoint data weight (xs ++ c :: ys) = Except.ok outBase ∧
        ∀ vi, vi < data.length →
          outDup.getD vi [] = insertAt 0 xs.length (outBase.getD vi [])) := by
  constructor
  · intro segments hval
    refine ⟨data.map (fun v => dotRow v weight segments),
      by simp [dot_multi, hval], by simp, ?_, ?_⟩
    · intro row hrow
      obtain ⟨v, _, rfl⟩ := List.mem_map.mp hrow
      exact dotRow_length _ _ _
    · intro row hrow q hq
      obtain ⟨v, _, rfl⟩ := List.mem_map.mp hrow
      simp only [dotRow] at hq
      obtain ⟨ab, hab, rfl⟩ := List.mem_map.mp hq
      have h1 := segPairs_mem segments ab hab
      have ha := segmentsValid_zero_all segments hval ab.1 h1.1
      have hb := segmentsValid_zero_all segments hval ab.2 h1.2
      rw [ha, hb]
      exact segSum_self v weight 0
  · intro npoint xs ys c hval
    have hval2 := segmentsValid_dedup npoint c ys xs hval
    refine ⟨data.map (fun v => dotRow v weight (xs ++ c :: c :: ys)),
      data.map (fun v => dotRow v weight (xs ++ c :: ys)),
      by simp [dot_multi, hval], by simp [dot_multi, hval2], ?_⟩
    intro vi hvi
    rw [getD_map_of_lt (fun v => dotRow v weight (xs ++ c :: c :: ys)) [] [] data vi hvi,
      getD_map_of_lt (fun v => dotRow v weight (xs ++ c :: ys)) [] [] data vi hvi]
    exact dotRow_dup _ weight c ys xs

/-- Witness for C8: the all-zero case at `npoint = 0` with offsets
`[0, 0]`, and the empty-segment case at `npoint = 4` with offsets
`[0, 2, 2, 4]` versus `[0, 2, 4]`. -/
theorem dot_multi_zero_and_empty_witness :
    (∀ segments : List Nat, segmentsValid 0 segments = true →
      ∃ out, dot_multi 0 [[1, 2, 3, 4]] [1, 1, 1, 1] segments = Except.ok out ∧
        out.length = ([[1, 2, 3, 4]] : List (List ℚ)).length ∧
        (∀ row ∈ out, row.length = segments.length - 1) ∧
        (∀ row ∈ out, ∀ q ∈ row, q = 0)) ∧
    (∀ (npoint : Nat) (xs ys : List Nat) (c : Nat),
      segmentsValid npoint (xs ++ c :: c :: ys) = true →
      ∃ outDup outBase,
        dot_multi npoint [[1, 2, 3, 4]] [1, 1, 1, 1] (xs ++ c :: c :: ys) =
          Except.ok outDup ∧
        dot_multi npoint [[1, 2, 3, 4]] [1, 1, 1, 1] (xs ++ c :: ys) =
          Except.ok outBase ∧
        ∀ vi, vi < ([[1, 2, 3, 4]] : List (List ℚ)).length →
          outDup.getD vi [] = insertAt 0 xs.length (outBase.getD vi [])) :=
  dot_multi_zero_and_empty [[1, 2, 3, 4]] [1, 1, 1, 1]

/-- C9: each operation of the model is a pure function of its inputs, so
two runs on identical inputs give identical outputs; in particular the
cube moment result is a function of `(data, ugrid, center, lmax, mtype)`
alone — two successful calls differing only in the caller-computed
`nmoment` argument return the same moment vector. -/
theorem cube_moments_deterministic (data : List (List ℚ)) (ugrid : UniformGrid)
    (center : Vec3) (lmax mtype n1 n2 : Int) (o1 o2 : List ℚ)
    (h1 : dot_multi_moments_cube data ugrid center lmax mtype n1 = Except.ok o1)
    (h2 : dot_multi_moments_cube data ugrid center lmax mtype n2 = Except.ok o2) :
    o1 = o2 := by
  simp only [dot_multi_moments_cube] at h1 h2
  split_ifs at h1 h2
  simp_all

/-- Witness for C9 at the 2×2×2 unit cube of C7's scenario, run twice. -/
theorem cube_moments_deterministic_witness : ([8] : List ℚ) = [8] :=
  cube_moments_deterministic [List.replicate 8 1]
    ⟨(0, 0, 0), (1, 0, 0), (0, 1, 0), (0, 0, 1), 2, 2, 2⟩
    (1/2, 1/2, 1/2) 0 0 1 1 [8] [8]
    (by norm_num [dot_multi_moments_cube, nmomentFor, gridIndices, List.range_succ,
      flatIdx, cubeCoord, vsub, momentBasis, monomialBasis, pointTerm, addScaled,
      List.replicate])
    (by norm_num [dot_multi_moments_cube, nmomentFor, gridIndices, List.range_succ,
      flatIdx, cubeCoord, vsub, momentBasis, monomialBasis, pointTerm, addScaled,
      List.replicate])

/-- C10: all three functions declared in `src/old_grids/grid/utils.h`
have return type `void` — a successful call communicates its result only
through the caller-provided `output` buffer parameter, and no return
value or error-code parameter exists in the declared interface. -/
theorem utils_h_decls_void :
    utils_h_decls.length = 3 ∧
    ∀ d ∈ utils_h_decls, d.returnType = "void" ∧
      (∃ p ∈ d.params, p.ctype = "double*" ∧ p.cname = "output") ∧
      ∀ p ∈ d.params, p.cname ≠ "error" ∧ p.cname ≠ "status" ∧
        p.cname ≠ "errcode" := by
  decide
